import Mathlib

/-!
Verification of the ci-sidecar repository: a shallow embedding of its
log-block extractor, reconciliation diff, check publisher and per-build
event serializer, with theorems checking the natural-language
specification against the code.

Sources embedded (by file):
- `src/github.ts` / unnamed part_003: `GitHub.getStatus`, `GitHub.getConclusion`,
  `GitHub.jobsToUpdate`, `GitHub.getChecksUpdateParams`, `GitHub.createCheck`,
  `GitHub.updateCheck`, `GitHub.addCompletionInfo`.
- unnamed part_002 (batch log scanner): `Travis.getJobOutputImpl`, and its
  retrying wrapper `Travis.getJobOutput`.
- unnamed part_008 (`app.on('status')` handler): the per-build pending-count
  admission / drain loop.
-/

/-! ## JSON values

Model of the JavaScript `JSON.parse` builtin (external to the repository),
covering the JSON fragment the program exchanges: null, booleans, integers,
strings, arrays and objects. Parsing is fuel-bounded recursive descent. -/

inductive Json where
  | null : Json
  | bool (b : Bool) : Json
  | num (n : Int) : Json
  | str (s : String) : Json
  | arr (elems : List Json) : Json
  | obj (fields : List (String × Json)) : Json

/-- The `\x7b` character. -/
def lbraceChar : Char := Char.ofNat 123

/-- The `\x7d` character. -/
def rbraceChar : Char := Char.ofNat 125

def skipWs : List Char → List Char
  | [] => []
  | c :: cs =>
    if c = ' ' ∨ c = '\t' ∨ c = '\n' ∨ c = '\r' then skipWs cs else c :: cs

def unescapeChar (c : Char) : Char :=
  if c = 'n' then '\n' else if c = 't' then '\t' else c

def parseStringChars : List Char → Option (String × List Char)
  | [] => none
  | '"' :: cs => some ("", cs)
  | '\\' :: e :: cs =>
    (parseStringChars cs).map (fun r => (String.mk (unescapeChar e :: r.1.data), r.2))
  | c :: cs =>
    (parseStringChars cs).map (fun r => (String.mk (c :: r.1.data), r.2))

def takeDigits : List Char → (List Char × List Char)
  | [] => ([], [])
  | c :: cs =>
    if c.isDigit then
      let r := takeDigits cs
      (c :: r.1, r.2)
    else ([], c :: cs)

def digitsToNat (ds : List Char) : Nat :=
  ds.foldl (fun n c => n * 10 + (c.toNat - 48)) 0

mutual

def parseValue : Nat → List Char → Option (Json × List Char)
  | 0, _ => none
  | Nat.succ fuel, input =>
    match skipWs input with
    | [] => none
    | c :: cs =>
      if c = '"' then (parseStringChars cs).map (fun r => (Json.str r.1, r.2))
      else if c = lbraceChar then parseObjRest fuel cs
      else if c = '[' then parseArrRest fuel cs
      else if c = 't' then
        match cs with
        | 'r' :: 'u' :: 'e' :: rest => some (Json.bool true, rest)
        | _ => none
      else if c = 'f' then
        match cs with
        | 'a' :: 'l' :: 's' :: 'e' :: rest => some (Json.bool false, rest)
        | _ => none
      else if c = 'n' then
        match cs with
        | 'u' :: 'l' :: 'l' :: rest => some (Json.null, rest)
        | _ => none
      else if c = '-' then
        match takeDigits cs with
        | ([], _) => none
        | (ds, rest) => some (Json.num (-(digitsToNat ds : Int)), rest)
      else if c.isDigit then
        let r := takeDigits (c :: cs)
        some (Json.num (digitsToNat r.1), r.2)
      else none

def parseObjRest : Nat → List Char → Option (Json × List Char)
  | 0, _ => none
  | Nat.succ fuel, input =>
    match skipWs input with
    | [] => none
    | c :: cs =>
      if c = rbraceChar then some (Json.obj [], cs)
      else if c = '"' then
        match parseStringChars cs with
        | none => none
        | some (key, rest1) =>
          match skipWs rest1 with
          | ':' :: rest2 =>
            match parseValue fuel rest2 with
            | none => none
            | some (v, rest3) =>
              match skipWs rest3 with
              | ',' :: rest4 =>
                match parseObjRest fuel rest4 with
                | some (Json.obj fields, rest5) => some (Json.obj ((key, v) :: fields), rest5)
                | _ => none
              | c2 :: rest4 =>
                if c2 = rbraceChar then some (Json.obj [(key, v)], rest4) else none
              | [] => none
          | _ => none
      else none

def parseArrRest : Nat → List Char → Option (Json × List Char)
  | 0, _ => none
  | Nat.succ fuel, input =>
    match skipWs input with
    | [] => none
    | ']' :: cs => some (Json.arr [], cs)
    | input1 =>
      match parseValue fuel input1 with
      | none => none
      | some (v, rest1) =>
        match skipWs rest1 with
        | ',' :: rest2 =>
          match parseArrRest fuel rest2 with
          | some (Json.arr elems, rest3) => some (Json.arr (v :: elems), rest3)
          | _ => none
        | ']' :: rest2 => some (Json.arr [v], rest2)
        | _ => none

end

/-- Model of `JSON.parse`: parse the whole string as a single JSON value,
allowing trailing whitespace only; `none` is a parse failure (the thrown
`SyntaxError`). -/
def Json.parse (s : String) : Option Json :=
  match parseValue (s.length + 1) s.data with
  | some (j, rest) => if skipWs rest = [] then some j else none
  | none => none

/-! ## CI data model (`src/ci.ts`) -/

/-- `JobInfo` from `src/ci.ts`; `checkRunId` is optional (set only after a
check has been successfully created). -/
structure JobInfo where
  jobId : String
  finishedAt : String
  ignoreFailure : Bool
  name : String
  startedAt : String
  state : String
  url : String
  checkRunId : Option String
deriving DecidableEq

/-- `BuildInfo` from `src/ci.ts`. -/
structure BuildInfo where
  domain : String
  headBranch : Option String
  headSha : String
  id : String
  owner : String
  repo : String
deriving DecidableEq

/-! ## GitHub check presenter (`src/github.ts`, unnamed part_003) -/

/-- `GitHub.FINISHED_STATES`. -/
def FINISHED_STATES : List String := ["passed", "failed", "errored", "canceled"]

/-- `GitHub.getStatus`: derive a check status bucket from the job state. -/
def getStatus (jobInfo : JobInfo) : String :=
  if FINISHED_STATES.contains jobInfo.state then "completed"
  else if jobInfo.state = "started" then "in_progress"
  else "queued"

/-- `GitHub.getConclusion`: conclusion for a completed job. -/
def getConclusion (jobInfo : JobInfo) : String :=
  if jobInfo.state = "passed" then "success"
  else if jobInfo.state = "failed" ∧ jobInfo.ignoreFailure = false then "failure"
  else if jobInfo.state = "canceled" then "cancelled"
  else "neutral"

/-- `JobDiff` from `src/ci.ts`. -/
structure JobDiff where
  create : List JobInfo
  update : List JobInfo
deriving DecidableEq

/-- `GitHub.jobsToUpdate` (unnamed part_003 lines 27-47): walk `newJobs`;
a current record with no previous record of the same `jobId` is pushed to
`create`; one whose previous match (via `Array.find`, the first match)
differs in derived status or in name is pushed to `update`; otherwise it is
skipped. -/
def jobsToUpdate (oldJobs : List JobInfo) : List JobInfo → JobDiff
  | [] => ⟨[], []⟩
  | current :: rest =>
    let d := jobsToUpdate oldJobs rest
    match oldJobs.find? (fun j => j.jobId == current.jobId) with
    | none => ⟨current :: d.create, d.update⟩
    | some previous =>
      if getStatus current ≠ getStatus previous ∨ current.name ≠ previous.name then
        ⟨d.create, current :: d.update⟩
      else d

/-- `GitHub.getChecksUpdateParams` (unnamed part_003 lines 95-105). The
source reads `jobInfo.checkRunId!` (a TypeScript non-null assertion); the
embedding records the field as the `Option` it really is, so an absent
`checkRunId` shows up as `none`. Fields other than `check_run_id` that the
claims never touch are carried verbatim. -/
structure ChecksUpdateParams where
  check_run_id : Option String
  details_url : String
  name : String
  owner : String
  repo : String
  started_at : String
  status : String
deriving DecidableEq

def getChecksUpdateParams (buildInfo : BuildInfo) (jobInfo : JobInfo) : ChecksUpdateParams :=
  { check_run_id := jobInfo.checkRunId
    details_url := jobInfo.url
    name := jobInfo.name
    owner := buildInfo.owner
    repo := buildInfo.repo
    started_at := jobInfo.startedAt
    status := getStatus jobInfo }

/-! ## Check publisher (`src/src/github.ts` lines 68-178)

`createCheck` / `updateCheck` build a params payload, call
`addCompletionInfo` when the status is completed, then execute the API
request inside a try/catch. `addCompletionInfo` sets `conclusion` and
`completed_at` first and only then tries the job-output fetch, catching
and logging any failure. The fetch outcome and the API outcome are the
two external effects; the embedding passes them in as `Except` values. -/

/-- A failure raised by the job-output retrieval (`getJobOutput`): the
terminal error after exhausting the `StreamIncomplete` retry bound, a JSON
parse failure, or anything else. -/
inductive FetchError where
  | retriesExhausted : FetchError
  | parseFailure : FetchError
  | other : FetchError
deriving DecidableEq

namespace SrcGithub

/-- `Octokit.ChecksCreateParams` as filled by
`GitHub.getChecksCreateParams` plus the completion fields that
`GitHub.addCompletionInfo` may attach (absent fields are `none`). -/
structure ChecksCreateParams where
  details_url : String
  external_id : String
  head_branch : Option String
  head_sha : String
  name : String
  owner : String
  repo : String
  started_at : String
  status : String
  conclusion : Option String
  completed_at : Option String
  output : Option Json

/-- `Octokit.ChecksUpdateParams` as filled by
`GitHub.getChecksUpdateParams` plus the completion fields. -/
structure ChecksUpdateParams where
  check_run_id : Option String
  details_url : String
  external_id : String
  name : String
  owner : String
  repo : String
  started_at : String
  status : String
  conclusion : Option String
  completed_at : Option String
  output : Option Json

/-- `GitHub.getChecksCreateParams` (src/src/github.ts lines 131-143). -/
def getChecksCreateParams (buildInfo : BuildInfo) (jobInfo : JobInfo) : ChecksCreateParams :=
  { details_url := jobInfo.url
    external_id := buildInfo.id ++ "/" ++ jobInfo.jobId
    head_branch := buildInfo.headBranch
    head_sha := buildInfo.headSha
    name := jobInfo.name
    owner := buildInfo.owner
    repo := buildInfo.repo
    started_at := jobInfo.startedAt
    status := getStatus jobInfo
    conclusion := none
    completed_at := none
    output := none }

/-- `GitHub.getChecksUpdateParams` (src/src/github.ts lines 145-156). -/
def getChecksUpdateParams (buildInfo : BuildInfo) (jobInfo : JobInfo) : ChecksUpdateParams :=
  { check_run_id := jobInfo.checkRunId
    details_url := jobInfo.url
    external_id := buildInfo.id ++ "/" ++ jobInfo.jobId
    name := jobInfo.name
    owner := buildInfo.owner
    repo := buildInfo.repo
    started_at := jobInfo.startedAt
    status := getStatus jobInfo
    conclusion := none
    completed_at := none
    output := none }

/-- `GitHub.addCompletionInfo` (src/src/github.ts lines 158-178), create
variant: set `conclusion` and `completed_at` unconditionally, then attach
the fetched output if the fetch succeeded with a value; a fetch failure is
caught and logged, leaving the payload without `output`. -/
def addCompletionInfoCreate (payload : ChecksCreateParams) (jobInfo : JobInfo)
    (jobOutput : Except FetchError (Option Json)) : ChecksCreateParams :=
  let p := { payload with
    conclusion := some (getConclusion jobInfo)
    completed_at := some jobInfo.finishedAt }
  match jobOutput with
  | .ok (some o) => { p with output := some o }
  | .ok none => p
  | .error _ => p

/-- `GitHub.addCompletionInfo`, update variant (same source lines; the
source function is polymorphic over the two payload shapes). -/
def addCompletionInfoUpdate (payload : ChecksUpdateParams) (jobInfo : JobInfo)
    (jobOutput : Except FetchError (Option Json)) : ChecksUpdateParams :=
  let p := { payload with
    conclusion := some (getConclusion jobInfo)
    completed_at := some jobInfo.finishedAt }
  match jobOutput with
  | .ok (some o) => { p with output := some o }
  | .ok none => p
  | .error _ => p

/-- `GitHub.createCheck` (src/src/github.ts lines 68-84). `jobOutput` is the
outcome of the awaited `this.getJobOutput(jobInfo)` call, `apiResult` the
outcome of `this.client.checks.create` (its `id` on success). The result is
the payload actually passed to the API call, paired with the returned
check-run id (`none` when the API call failed, since that error is caught
and logged). -/
def createCheck (buildInfo : BuildInfo) (jobInfo : JobInfo)
    (jobOutput : Except FetchError (Option Json))
    (apiResult : Except FetchError Nat) : ChecksCreateParams × Option String :=
  let payload := getChecksCreateParams buildInfo jobInfo
  let payload :=
    if payload.status = "completed" then addCompletionInfoCreate payload jobInfo jobOutput
    else payload
  match apiResult with
  | .ok checkId => (payload, some (toString checkId))
  | .error _ => (payload, none)

/-- `GitHub.updateCheck` (src/src/github.ts lines 86-102): same shape; the
API outcome is swallowed either way, so only the executed payload is
returned. -/
def updateCheck (buildInfo : BuildInfo) (jobInfo : JobInfo)
    (jobOutput : Except FetchError (Option Json))
    (apiResult : Except FetchError Unit) : ChecksUpdateParams :=
  let payload := getChecksUpdateParams buildInfo jobInfo
  let payload :=
    if payload.status = "completed" then addCompletionInfoUpdate payload jobInfo jobOutput
    else payload
  match apiResult with
  | .ok _ => payload
  | .error _ => payload

end SrcGithub

/-! ## Log-block extractor (`Travis.getJobOutputImpl`, unnamed part_002
lines 296-337)

The source fetches the whole log body, splits it into lines, and scans
them with two mutable locals (`blockStarted`, `outputString`):
a line trimming to `---output` opens the fence; once inside, a line
trimming to `---` closes it and the accumulated text is JSON-parsed
(a parse failure is thrown as a distinct error); any other line inside the
fence is appended trimmed; outside the fence, a line containing
`Your build exited` resolves "no block" (`undefined`); running out of
lines while still scanning throws `LogStreamIncomplete`. The embedding
takes the line list the source derives from the body. -/

/-- Whitespace for the model of `String.prototype.trim`. -/
def isJsSpace (c : Char) : Bool :=
  c = ' ' || c = '\t' || c = '\n' || c = '\r' || c = '\x0b' || c = '\x0c'

def dropWhileWs : List Char → List Char
  | [] => []
  | c :: cs => if isJsSpace c then dropWhileWs cs else c :: cs

/-- Model of the JavaScript `String.prototype.trim` builtin: drop
whitespace from both ends. -/
def jsTrim (s : String) : String :=
  String.mk ((dropWhileWs ((dropWhileWs s.data).reverse)).reverse)

def containsSub (pat : List Char) : List Char → Bool
  | [] => pat.isEmpty
  | c :: cs => pat.isPrefixOf (c :: cs) || containsSub pat cs

/-- Model of the JavaScript `String.prototype.includes` builtin: substring
containment. -/
def containsStr (s pat : String) : Bool := containsSub pat.data s.data

/-- The provider completion marker scanned for outside a fence. -/
def buildExitedMarker : String := "Your build exited"

/-- Outcome of one extraction attempt: a resolved value (`ok`), a JSON
parse failure, or the thrown `LogStreamIncomplete`. -/
inductive ExtractResult where
  | ok (v : Option Json) : ExtractResult
  | parseError : ExtractResult
  | streamIncomplete : ExtractResult

/-- The scanning loop of `getJobOutputImpl`: `blockStarted` and
`outputString` are the two mutable locals threaded through the lines. -/
def scanLines (blockStarted : Bool) (outputString : String) : List String → ExtractResult
  | [] => .streamIncomplete
  | line :: rest =>
    let trimmed := jsTrim line
    if blockStarted = false ∧ trimmed = "---output" then
      scanLines true outputString rest
    else if blockStarted = true ∧ trimmed = "---" then
      match Json.parse outputString with
      | some j => .ok (some j)
      | none => .parseError
    else if blockStarted = true then
      scanLines blockStarted (outputString ++ trimmed) rest
    else if containsStr trimmed buildExitedMarker then
      .ok none
    else
      scanLines blockStarted outputString rest

/-- `Travis.getJobOutputImpl` on the line list of the fetched log body. -/
def getJobOutputImpl (lines : List String) : ExtractResult :=
  scanLines false "" lines

/-! ## Retrying wrapper (`Travis.getJobOutput`, unnamed part_002 lines
275-294 / part_001 lines 107-126)

`let tries = 10; while (tries > 0) { try return impl() catch (e) {
if (e.message === 'LogStreamIncomplete') { tries -= 1; if (tries > 0)
await delay(3000) } else throw e } } throw terminal`. The embedding
abstracts one underlying attempt as a value of `AttemptResult` indexed by
attempt number, and tracks the attempts made and the backoff delay
accumulated. -/

/-- What one call of the underlying extraction does. -/
inductive AttemptResult where
  | ok (v : Option Json) : AttemptResult
  | streamIncomplete : AttemptResult
  | otherError : AttemptResult

/-- How the wrapper finishes: a resolved value, the terminal job-scoped
error after exhausting the bound, or an immediately propagated
non-`StreamIncomplete` failure. -/
inductive RetryOutcome where
  | ok (v : Option Json) : RetryOutcome
  | terminalError : RetryOutcome
  | propagated : RetryOutcome

structure RetryRun where
  outcome : RetryOutcome
  attemptsMade : Nat
  delayMs : Nat

/-- The `while (tries > 0)` loop: `idx` numbers the attempts from 0,
`delayAcc` accumulates the 3000 ms backoffs actually awaited (the source
skips the delay when the decremented `tries` hits 0). -/
def retryLoop (impl : Nat → AttemptResult) : Nat → Nat → Nat → RetryRun
  | 0, idx, delayAcc => ⟨.terminalError, idx, delayAcc⟩
  | Nat.succ tries, idx, delayAcc =>
    match impl idx with
    | .ok v => ⟨.ok v, idx + 1, delayAcc⟩
    | .otherError => ⟨.propagated, idx + 1, delayAcc⟩
    | .streamIncomplete =>
      if tries > 0 then retryLoop impl tries (idx + 1) (delayAcc + 3000)
      else retryLoop impl tries (idx + 1) delayAcc

/-- `Travis.getJobOutput`: the loop entered with `tries = 10`. -/
def getJobOutput (impl : Nat → AttemptResult) : RetryRun :=
  retryLoop impl 10 0 0

/-! ## Per-build event serializer (`app.on('status')`, unnamed part_008)

State per build key: the `inProgress` map entry (absent or a positive
pending count). The handler's atomic segments become two events:
`arrive` (lines 100-117: read count, drop if the increment would exceed
`maxInProgress`, else store it; a count created from absent also starts
the processing loop, i.e. a reconciliation pass) and `complete`
(lines 119-139: a pass finished; decrement, store if positive — which
makes the loop run one more pass — else delete the entry). `passes`
counts the passes started. -/

structure SerState where
  entry : Option Nat
  passes : Nat
deriving DecidableEq

inductive SerEvent where
  | arrive : SerEvent
  | complete : SerEvent
deriving DecidableEq

/-- `getPendingCount`: `inProgress.get(key) || 0`. -/
def getPendingCount (s : SerState) : Nat := s.entry.getD 0

/-- One atomic segment of the handler for a single build key.
`complete` only ever occurs while a pass is in flight, which coincides
with the entry being present; on an absent entry it is a no-op for
totality. -/
def serStep (maxInProgress : Nat) (s : SerState) : SerEvent → SerState
  | .arrive =>
    let pending := getPendingCount s + 1
    if pending > maxInProgress then s
    else if pending > 1 then { s with entry := some pending }
    else { entry := some pending, passes := s.passes + 1 }
  | .complete =>
    match s.entry with
    | none => s
    | some c =>
      let pendingAfter := c - 1
      if pendingAfter > 0 then { entry := some pendingAfter, passes := s.passes + 1 }
      else { s with entry := none }

/-- Run a sequence of events from a state. -/
def serRun (maxInProgress : Nat) (s : SerState) (evs : List SerEvent) : SerState :=
  evs.foldl (serStep maxInProgress) s

/-- The idle state for a build key: no entry, no pass ever started. -/
def serIdle : SerState := ⟨none, 0⟩

/-! ## Theorems -/

/-! ### Reconciliation diff (C1, C6) -/

theorem jobsToUpdate_cons (old : List JobInfo) (c : JobInfo) (rest : List JobInfo) :
    jobsToUpdate old (c :: rest) =
      match old.find? (fun j => j.jobId == c.jobId) with
      | none => ⟨c :: (jobsToUpdate old rest).create, (jobsToUpdate old rest).update⟩
      | some p =>
        if getStatus c ≠ getStatus p ∨ c.name ≠ p.name then
          ⟨(jobsToUpdate old rest).create, c :: (jobsToUpdate old rest).update⟩
        else jobsToUpdate old rest := rfl

theorem mem_create_iff (old : List JobInfo) (cur : List JobInfo) (c : JobInfo) :
    c ∈ (jobsToUpdate old cur).create ↔
      c ∈ cur ∧ old.find? (fun j => j.jobId == c.jobId) = none := by
  induction cur with
  | nil => simp [jobsToUpdate]
  | cons hd rest ih =>
    rw [jobsToUpdate_cons]
    cases hfind : old.find? (fun j => j.jobId == hd.jobId) with
    | none =>
      simp only [List.mem_cons]
      constructor
      · rintro (rfl | hmem)
        · exact ⟨Or.inl rfl, hfind⟩
        · obtain ⟨h1, h2⟩ := ih.mp hmem
          exact ⟨Or.inr h1, h2⟩
      · rintro ⟨rfl | hmem, hnone⟩
        · exact Or.inl rfl
        · exact Or.inr (ih.mpr ⟨hmem, hnone⟩)
    | some p =>
      by_cases hch : getStatus hd ≠ getStatus p ∨ hd.name ≠ p.name
      · simp only [if_pos hch]
        rw [ih]
        constructor
        · rintro ⟨hmem, hnone⟩
          exact ⟨List.mem_cons_of_mem _ hmem, hnone⟩
        · rintro ⟨hmemc, hnone⟩
          rcases List.mem_cons.mp hmemc with rfl | hmem
          · rw [hfind] at hnone; cases hnone
          · exact ⟨hmem, hnone⟩
      · simp only [if_neg hch]
        rw [ih]
        constructor
        · rintro ⟨hmem, hnone⟩
          exact ⟨List.mem_cons_of_mem _ hmem, hnone⟩
        · rintro ⟨hmemc, hnone⟩
          rcases List.mem_cons.mp hmemc with rfl | hmem
          · rw [hfind] at hnone; cases hnone
          · exact ⟨hmem, hnone⟩

theorem mem_update_iff (old : List JobInfo) (cur : List JobInfo) (c : JobInfo) :
    c ∈ (jobsToUpdate old cur).update ↔
      c ∈ cur ∧ ∃ p, old.find? (fun j => j.jobId == c.jobId) = some p ∧
        (getStatus c ≠ getStatus p ∨ c.name ≠ p.name) := by
  induction cur with
  | nil => simp [jobsToUpdate]
  | cons hd rest ih =>
    rw [jobsToUpdate_cons]
    cases hfind : old.find? (fun j => j.jobId == hd.jobId) with
    | none =>
      simp only [List.mem_cons]
      rw [ih]
      constructor
      · rintro ⟨hmem, hp⟩
        exact ⟨Or.inr hmem, hp⟩
      · rintro ⟨rfl | hmem, p, hsome, hch⟩
        · rw [hfind] at hsome; cases hsome
        · exact ⟨hmem, p, hsome, hch⟩
    | some p =>
      by_cases hch : getStatus hd ≠ getStatus p ∨ hd.name ≠ p.name
      · simp only [if_pos hch, List.mem_cons]
        constructor
        · rintro (rfl | hmem)
          · exact ⟨Or.inl rfl, p, hfind, hch⟩
          · obtain ⟨h1, h2⟩ := ih.mp hmem
            exact ⟨Or.inr h1, h2⟩
        · rintro ⟨rfl | hmem, hp⟩
          · exact Or.inl rfl
          · exact Or.inr (ih.mpr ⟨hmem, hp⟩)
      · simp only [if_neg hch]
        rw [ih]
        constructor
        · rintro ⟨hmem, hp⟩
          exact ⟨List.mem_cons_of_mem _ hmem, hp⟩
        · rintro ⟨hmemc, q, hsome, hchq⟩
          rcases List.mem_cons.mp hmemc with rfl | hmem
          · rw [hfind] at hsome
            cases hsome
            exact absurd hchq hch
          · exact ⟨hmem, q, hsome, hchq⟩

/-- C1 (amended): for previous lists that are unique by `jobId` (the
BuildMemory invariant), `jobsToUpdate` partitions the current list into
disjoint create and update sets: a current record with no previous record
of the same `jobId` goes to `create`; one whose previous match differs in
derived status or in name goes to `update`; a current record is absent
from both iff a previous record with the same `jobId`, derived status and
name exists; and `jobsToUpdate X X = ⟨[], []⟩`. Without the uniqueness
hypothesis the absent-iff direction and idempotence fail (see the
counterexample), because `Array.find` only consults the first record with
a given `jobId`. -/
theorem c1_diff_partition (old cur : List JobInfo)
    (hUniq : ∀ p ∈ old, ∀ q ∈ old, p.jobId = q.jobId → p = q) :
    (∀ c, ¬(c ∈ (jobsToUpdate old cur).create ∧ c ∈ (jobsToUpdate old cur).update)) ∧
    (∀ c ∈ cur, old.find? (fun j => j.jobId == c.jobId) = none →
      c ∈ (jobsToUpdate old cur).create) ∧
    (∀ c ∈ cur, ∀ p, old.find? (fun j => j.jobId == c.jobId) = some p →
      (getStatus c ≠ getStatus p ∨ c.name ≠ p.name) → c ∈ (jobsToUpdate old cur).update) ∧
    (∀ c ∈ cur,
      (c ∉ (jobsToUpdate old cur).create ∧ c ∉ (jobsToUpdate old cur).update) ↔
        ∃ p ∈ old, p.jobId = c.jobId ∧ getStatus p = getStatus c ∧ p.name = c.name) ∧
    jobsToUpdate old old = ⟨[], []⟩ := by
  refine ⟨?_, ?_, ?_, ?_, ?_⟩
  · rintro c ⟨h1, h2⟩
    obtain ⟨-, hnone⟩ := (mem_create_iff old cur c).mp h1
    obtain ⟨-, p, hsome, -⟩ := (mem_update_iff old cur c).mp h2
    rw [hnone] at hsome
    cases hsome
  · intro c hmem hnone
    exact (mem_create_iff old cur c).mpr ⟨hmem, hnone⟩
  · intro c hmem p hsome hch
    exact (mem_update_iff old cur c).mpr ⟨hmem, p, hsome, hch⟩
  · intro c hmem
    constructor
    · rintro ⟨hnc, hnu⟩
      cases hfind : old.find? (fun j => j.jobId == c.jobId) with
      | none => exact absurd ((mem_create_iff old cur c).mpr ⟨hmem, hfind⟩) hnc
      | some p =>
        by_cases hch : getStatus c ≠ getStatus p ∨ c.name ≠ p.name
        · exact absurd ((mem_update_iff old cur c).mpr ⟨hmem, p, hfind, hch⟩) hnu
        · push_neg at hch
          have hid : p.jobId = c.jobId := by
            have := List.find?_some hfind
            simpa using this
          exact ⟨p, List.mem_of_find?_eq_some hfind, hid, hch.1.symm, hch.2.symm⟩
    · rintro ⟨p, hp, hid, hst, hnm⟩
      have hsome : (old.find? (fun j => j.jobId == c.jobId)).isSome :=
        List.find?_isSome.mpr ⟨p, hp, by simp [hid]⟩
      obtain ⟨q, hq⟩ := Option.isSome_iff_exists.mp hsome
      have hqid : q.jobId = c.jobId := by
        have := List.find?_some hq
        simpa using this
      have hqp : q = p := hUniq q (List.mem_of_find?_eq_some hq) p hp (hqid.trans hid.symm)
      subst hqp
      constructor
      · intro hc
        obtain ⟨-, hnone⟩ := (mem_create_iff old cur c).mp hc
        rw [hnone] at hq
        cases hq
      · intro hc
        obtain ⟨-, p', hsome', hch'⟩ := (mem_update_iff old cur c).mp hc
        rw [hq] at hsome'
        cases hsome'
        rcases hch' with h | h
        · exact h hst.symm
        · exact h hnm.symm
  · have hc : (jobsToUpdate old old).create = [] := by
      rw [List.eq_nil_iff_forall_not_mem]
      intro c hc
      obtain ⟨hmem, hnone⟩ := (mem_create_iff old old c).mp hc
      have := List.find?_eq_none.mp hnone c hmem
      simp at this
    have hu : (jobsToUpdate old old).update = [] := by
      rw [List.eq_nil_iff_forall_not_mem]
      intro c hc
      obtain ⟨hmem, p, hsome, hch⟩ := (mem_update_iff old old c).mp hc
      have hid : p.jobId = c.jobId := by
        have := List.find?_some hsome
        simpa using this
      have hpc : p = c := hUniq p (List.mem_of_find?_eq_some hsome) c hmem hid
      subst hpc
      rcases hch with h | h
      · exact h rfl
      · exact h rfl
    calc jobsToUpdate old old = ⟨(jobsToUpdate old old).create, (jobsToUpdate old old).update⟩ :=
          rfl
    _ = ⟨[], []⟩ := by rw [hc, hu]

/-- C1 counterexample: with a previous list holding two records of the same
`jobId` (`started` first, `passed` second), the claim fails as stated: here
with `X` that very list, `diff(X, X)` is not `⟨[], []⟩` (the second record
of `X` lands in `update`, although a previous record with the same
`jobId`, derived status and name — itself — exists), because `find`
returns only the first `jobId` match. -/
theorem c1_counterexample :
    jobsToUpdate
      [⟨"1", "", false, "A", "", "started", "", none⟩,
       ⟨"1", "", false, "A", "", "passed", "", none⟩]
      [⟨"1", "", false, "A", "", "started", "", none⟩,
       ⟨"1", "", false, "A", "", "passed", "", none⟩] ≠ ⟨[], []⟩ := by decide

/-- Witness for `c1_diff_partition` at a concrete list unique by `jobId`. -/
theorem c1_diff_partition_witness :
    (∀ p ∈ ([⟨"1", "", false, "A", "", "started", "", none⟩] : List JobInfo),
      ∀ q ∈ ([⟨"1", "", false, "A", "", "started", "", none⟩] : List JobInfo),
        p.jobId = q.jobId → p = q) ∧
    jobsToUpdate [⟨"1", "", false, "A", "", "started", "", none⟩]
      [⟨"1", "", false, "A", "", "started", "", none⟩] = ⟨[], []⟩ :=
  ⟨by decide, (c1_diff_partition
    [⟨"1", "", false, "A", "", "started", "", none⟩]
    [⟨"1", "", false, "A", "", "started", "", none⟩] (by decide)).2.2.2.2⟩

/-! ### Status and conclusion mapping (C4) -/

/-- C4: for a job record, `getConclusion` returns `success` for state
`passed`; `failure` for `failed` with `ignoreFailure` false; `neutral` for
`failed` with `ignoreFailure` true; `cancelled` for `canceled` regardless
of `ignoreFailure`; and `neutral` for any other state in the completed
bucket (e.g. `errored`). `getStatus` maps the four finished states to
`completed`, `started` to `in_progress`, and everything else to
`queued`. -/
theorem c4_status_conclusion (j : JobInfo) :
    (j.state = "passed" → getConclusion j = "success") ∧
    (j.state = "failed" → j.ignoreFailure = false → getConclusion j = "failure") ∧
    (j.state = "failed" → j.ignoreFailure = true → getConclusion j = "neutral") ∧
    (j.state = "canceled" → getConclusion j = "cancelled") ∧
    (getStatus j = "completed" → j.state ≠ "passed" → j.state ≠ "failed" →
      j.state ≠ "canceled" → getConclusion j = "neutral") ∧
    ((j.state = "passed" ∨ j.state = "failed" ∨ j.state = "errored" ∨ j.state = "canceled") ↔
      getStatus j = "completed") ∧
    (j.state = "started" → getStatus j = "in_progress") ∧
    (¬(j.state = "passed" ∨ j.state = "failed" ∨ j.state = "errored" ∨ j.state = "canceled") →
      j.state ≠ "started" → getStatus j = "queued") := by
  have hcon : FINISHED_STATES.contains j.state = true ↔
      (j.state = "passed" ∨ j.state = "failed" ∨ j.state = "errored" ∨ j.state = "canceled") := by
    simp [FINISHED_STATES]
  have hmem : getStatus j = "completed" ↔
      (j.state = "passed" ∨ j.state = "failed" ∨ j.state = "errored" ∨ j.state = "canceled") := by
    unfold getStatus
    split_ifs with h1 h2
    · exact ⟨fun _ => hcon.mp h1, fun _ => rfl⟩
    · exact ⟨fun h => absurd h (by decide), fun h => absurd (hcon.mpr h) h1⟩
    · exact ⟨fun h => absurd h (by decide), fun h => absurd (hcon.mpr h) h1⟩
  refine ⟨?_, ?_, ?_, ?_, ?_, hmem.symm, ?_, ?_⟩
  · intro h; simp [getConclusion, h]
  · intro h hi; simp [getConclusion, h, hi]
  · intro h hi; simp [getConclusion, h, hi]
  · intro h; simp [getConclusion, h]
  · intro hc h1 h2 h3
    have := hmem.mp hc
    have he : j.state = "errored" := by tauto
    simp [getConclusion, he]
  · intro h
    have hnc : ¬(FINISHED_STATES.contains j.state = true) := by
      rw [h]; decide
    unfold getStatus
    rw [if_neg hnc, if_pos h]
  · intro h1 h2
    have hnc : ¬(FINISHED_STATES.contains j.state = true) := fun hc => h1 (hcon.mp hc)
    unfold getStatus
    rw [if_neg hnc, if_neg h2]

/-- Witness for `c4_status_conclusion` at concrete job records: a `failed`
job with `ignoreFailure` set concludes `neutral`, a `canceled` job with
`ignoreFailure` set concludes `cancelled`, and an `errored` job is
`completed` with conclusion `neutral`. -/
theorem c4_status_conclusion_witness :
    getConclusion ⟨"1", "", true, "A", "", "failed", "", none⟩ = "neutral" ∧
    getConclusion ⟨"1", "", true, "A", "", "canceled", "", none⟩ = "cancelled" ∧
    getStatus ⟨"1", "", false, "A", "", "errored", "", none⟩ = "completed" ∧
    getConclusion ⟨"1", "", false, "A", "", "errored", "", none⟩ = "neutral" :=
  ⟨(c4_status_conclusion _).2.2.1 rfl rfl,
   (c4_status_conclusion _).2.2.2.1 rfl,
   (c4_status_conclusion ⟨"1", "", false, "A", "", "errored", "", none⟩).2.2.2.2.2.1.mp
     (by simp),
   (c4_status_conclusion ⟨"1", "", false, "A", "", "errored", "", none⟩).2.2.2.2.1
     ((c4_status_conclusion ⟨"1", "", false, "A", "", "errored", "", none⟩).2.2.2.2.2.1.mp
       (by simp)) (by simp) (by simp) (by simp)⟩

/-! ### Update records and `checkRunId` (C6) -/

/-- C6 evaluated at the failing input: the previous record for job "1" has
`checkRunId` "42" and state `started`; the current record for job "1" has
state `passed` (so the derived status differs) and, coming fresh from the
job fetch, no `checkRunId`. `jobsToUpdate` emits the current record itself
as the update — it does not carry forward the previous record's
`checkRunId` — so `getChecksUpdateParams` fills `check_run_id` from the
absent field (`jobInfo.checkRunId!` in the source, i.e. `undefined`)
rather than addressing check "42". -/
theorem c6_checkRunId_not_carried :
    (jobsToUpdate
      [⟨"1", "", false, "A", "", "started", "", some "42"⟩]
      [⟨"1", "", false, "A", "", "passed", "", none⟩]).update =
        [⟨"1", "", false, "A", "", "passed", "", none⟩] ∧
    (getChecksUpdateParams ⟨"travis-ci.org", none, "sha", "7", "o", "r"⟩
      ⟨"1", "", false, "A", "", "passed", "", none⟩).check_run_id = none := by
  constructor
  · decide
  · rfl

/-! ### Log-block extractor (C2, C10) -/

theorem scanLines_inside_step (acc : String) (line : String) (rest : List String)
    (hne : jsTrim line ≠ "---") :
    scanLines true acc (line :: rest) = scanLines true (acc ++ jsTrim line) rest := by
  simp only [scanLines]
  rw [if_neg (by simp), if_neg (by simp [hne]), if_pos trivial]

theorem scanLines_inside_incomplete (rest : List String) :
    ∀ acc, (∀ l ∈ rest, jsTrim l ≠ "---") → scanLines true acc rest = .streamIncomplete := by
  induction rest with
  | nil => intro acc _; rfl
  | cons l ls ih =>
    intro acc h
    rw [scanLines_inside_step acc l ls (h l (List.mem_cons_self _ _))]
    exact ih _ (fun x hx => h x (List.mem_cons_of_mem _ hx))

theorem scanLines_initial_skip (pre : List String) (rest : List String) (acc : String)
    (hno : ∀ l ∈ pre, jsTrim l ≠ "---output")
    (hnm : ∀ l ∈ pre, containsStr (jsTrim l) buildExitedMarker = false) :
    scanLines false acc (pre ++ rest) = scanLines false acc rest := by
  induction pre with
  | nil => rfl
  | cons l ls ih =>
    have h1 : jsTrim l ≠ "---output" := hno l (List.mem_cons_self _ _)
    have h2 : containsStr (jsTrim l) buildExitedMarker = false :=
      hnm l (List.mem_cons_self _ _)
    rw [List.cons_append]
    simp only [scanLines]
    rw [if_neg (by simp [h1]), if_neg (by simp), if_neg (by simp), if_neg (by simp [h2])]
    exact ih (fun x hx => hno x (List.mem_cons_of_mem _ hx))
      (fun x hx => hnm x (List.mem_cons_of_mem _ hx))

theorem scanLines_marker_resolves (lines : List String) :
    ∀ acc, (∀ l ∈ lines, jsTrim l ≠ "---output") →
      (∃ l ∈ lines, containsStr (jsTrim l) buildExitedMarker = true) →
      scanLines false acc lines = .ok none := by
  induction lines with
  | nil =>
    intro acc _ hm
    obtain ⟨l, hl, -⟩ := hm
    cases hl
  | cons l ls ih =>
    intro acc hno hm
    have h1 : jsTrim l ≠ "---output" := hno l (List.mem_cons_self _ _)
    simp only [scanLines]
    rw [if_neg (by simp [h1]), if_neg (by simp), if_neg (by simp)]
    by_cases hc : containsStr (jsTrim l) buildExitedMarker = true
    · rw [if_pos hc]
    · rw [if_neg hc]
      obtain ⟨x, hx, hxm⟩ := hm
      rcases List.mem_cons.mp hx with rfl | hx'
      · exact absurd hxm hc
      · exact ih acc (fun y hy => hno y (List.mem_cons_of_mem _ hy)) ⟨x, hx', hxm⟩

/-- C2: the log scanner applied to
`["noise", "---output", "\x7b\"a\":1\x7d", "---", "trailing"]` returns the
parsed object `\x7b a: 1 \x7d`; applied to any line list containing no
fence opener but containing a line with the completion marker
`Your build exited`, it resolves the no-block result (`undefined`); and
applied to any line list whose fence is opened by `---output` (the scan
actually reaching the opener: no opener and no completion marker earlier)
but never closed by `---` before the lines end, it fails with
`StreamIncomplete`. -/
theorem c2_log_block_extractor :
    (getJobOutputImpl ["noise", "---output", "\x7b\"a\":1\x7d", "---", "trailing"] =
      .ok (some (Json.obj [("a", Json.num 1)]))) ∧
    (∀ lines : List String, (∀ l ∈ lines, jsTrim l ≠ "---output") →
      (∃ l ∈ lines, containsStr (jsTrim l) buildExitedMarker = true) →
      getJobOutputImpl lines = .ok none) ∧
    (∀ pre rest : List String,
      (∀ l ∈ pre, jsTrim l ≠ "---output") →
      (∀ l ∈ pre, containsStr (jsTrim l) buildExitedMarker = false) →
      (∀ l ∈ rest, jsTrim l ≠ "---") →
      getJobOutputImpl (pre ++ "---output" :: rest) = .streamIncomplete) := by
  refine ⟨rfl, ?_, ?_⟩
  · intro lines hno hm
    exact scanLines_marker_resolves lines "" hno hm
  · intro pre rest hno hnm hcl
    unfold getJobOutputImpl
    rw [scanLines_initial_skip pre ("---output" :: rest) "" hno hnm]
    simp only [scanLines]
    rw [if_pos ⟨trivial, rfl⟩]
    exact scanLines_inside_incomplete rest "" hcl

/-- Witness for `c2_log_block_extractor`: the no-fence-but-marker case at
`["noise", "Done. Your build exited with 0."]` and the never-closed case
at `["noise"] ++ "---output" :: ["body"]`. -/
theorem c2_log_block_extractor_witness :
    ((∀ l ∈ ["noise", "Done. Your build exited with 0."], jsTrim l ≠ "---output") ∧
      (∃ l ∈ ["noise", "Done. Your build exited with 0."],
        containsStr (jsTrim l) buildExitedMarker = true) ∧
      getJobOutputImpl ["noise", "Done. Your build exited with 0."] = .ok none) ∧
    ((∀ l ∈ ["noise"], jsTrim l ≠ "---output") ∧
      (∀ l ∈ ["noise"], containsStr (jsTrim l) buildExitedMarker = false) ∧
      (∀ l ∈ ["body"], jsTrim l ≠ "---") ∧
      getJobOutputImpl (["noise"] ++ "---output" :: ["body"]) = .streamIncomplete) :=
  ⟨⟨by decide, by decide,
    c2_log_block_extractor.2.1 ["noise", "Done. Your build exited with 0."]
      (by decide) (by decide)⟩,
   ⟨by decide, by decide, by decide,
    c2_log_block_extractor.2.2 ["noise"] ["body"] (by decide) (by decide) (by decide)⟩⟩

/-- C10: once inside a fenced block, a line containing the completion
marker `Your build exited` is accumulated as block content like any other
non-`---` line and does not finish the scan; consequently a stream whose
fence is opened (the scan reaching the `---output` line) but never closed
by `---` fails with `StreamIncomplete` even when a completion-marker line
appears after the fence opens. -/
theorem c10_marker_inside_block :
    (∀ (acc line : String) (rest : List String), jsTrim line ≠ "---" →
      containsStr (jsTrim line) buildExitedMarker = true →
      scanLines true acc (line :: rest) = scanLines true (acc ++ jsTrim line) rest) ∧
    (∀ pre rest : List String,
      (∀ l ∈ pre, jsTrim l ≠ "---output") →
      (∀ l ∈ pre, containsStr (jsTrim l) buildExitedMarker = false) →
      (∀ l ∈ rest, jsTrim l ≠ "---") →
      (∃ l ∈ rest, containsStr (jsTrim l) buildExitedMarker = true) →
      getJobOutputImpl (pre ++ "---output" :: rest) = .streamIncomplete) := by
  constructor
  · intro acc line rest hne _
    exact scanLines_inside_step acc line rest hne
  · intro pre rest hno hnm hcl _
    unfold getJobOutputImpl
    rw [scanLines_initial_skip pre ("---output" :: rest) "" hno hnm]
    simp only [scanLines]
    rw [if_pos ⟨trivial, rfl⟩]
    exact scanLines_inside_incomplete rest "" hcl

/-- Witness for `c10_marker_inside_block`: the fence opens at line 1 and a
completion-marker line follows inside the never-closed block; the scan
still fails with `StreamIncomplete`. -/
theorem c10_marker_inside_block_witness :
    (jsTrim "Done. Your build exited with 0." ≠ "---" ∧
      containsStr (jsTrim "Done. Your build exited with 0.") buildExitedMarker = true ∧
      scanLines true "" ["Done. Your build exited with 0."] =
        scanLines true ("" ++ jsTrim "Done. Your build exited with 0.") []) ∧
    ((∀ l ∈ ([] : List String), jsTrim l ≠ "---output") ∧
      (∀ l ∈ ([] : List String), containsStr (jsTrim l) buildExitedMarker = false) ∧
      (∀ l ∈ ["Done. Your build exited with 0."], jsTrim l ≠ "---") ∧
      (∃ l ∈ ["Done. Your build exited with 0."],
        containsStr (jsTrim l) buildExitedMarker = true) ∧
      getJobOutputImpl ([] ++ "---output" :: ["Done. Your build exited with 0."]) =
        .streamIncomplete) :=
  ⟨⟨by decide, by decide,
    c10_marker_inside_block.1 "" "Done. Your build exited with 0." [] (by decide) (by decide)⟩,
   ⟨by decide, by decide, by decide, by decide,
    c10_marker_inside_block.2 [] ["Done. Your build exited with 0."]
      (by decide) (by decide) (by decide) (by decide)⟩⟩

/-! ### Retrying wrapper (C3) -/

theorem retryLoop_ok (impl : Nat → AttemptResult) (v : Option Json) :
    ∀ (n tries idx delayAcc : Nat), n < tries →
      (∀ i, i < n → impl (idx + i) = .streamIncomplete) →
      impl (idx + n) = .ok v →
      retryLoop impl tries idx delayAcc = ⟨.ok v, idx + n + 1, delayAcc + 3000 * n⟩ := by
  intro n
  induction n with
  | zero =>
    intro tries idx delayAcc hlt _ hok
    obtain ⟨t, rfl⟩ := Nat.exists_eq_succ_of_ne_zero (Nat.pos_iff_ne_zero.mp hlt)
    simp only [retryLoop]
    rw [show idx + 0 = idx from rfl] at hok
    rw [hok]
    simp
  | succ n ih =>
    intro tries idx delayAcc hlt hsi hok
    obtain ⟨t, rfl⟩ := Nat.exists_eq_succ_of_ne_zero (Nat.pos_iff_ne_zero.mp (Nat.lt_of_le_of_lt (Nat.zero_le _) hlt))
    have hsi0 : impl idx = .streamIncomplete := by
      have := hsi 0 (Nat.succ_pos n)
      simpa using this
    have ht : t > 0 := by omega
    simp only [retryLoop]
    rw [hsi0]
    simp only [if_pos ht]
    have := ih t (idx + 1) (delayAcc + 3000) (by omega)
      (fun i hi => by
        have := hsi (i + 1) (by omega)
        simpa [Nat.add_assoc, Nat.add_comm 1 i] using this)
      (by
        have : idx + 1 + n = idx + (n + 1) := by omega
        rw [this]
        exact hok)
    rw [this]
    simp only [RetryRun.mk.injEq]
    refine ⟨trivial, by omega, by omega⟩

theorem retryLoop_exhausted (impl : Nat → AttemptResult) :
    ∀ (tries idx delayAcc : Nat), 1 ≤ tries →
      (∀ i, i < tries → impl (idx + i) = .streamIncomplete) →
      retryLoop impl tries idx delayAcc =
        ⟨.terminalError, idx + tries, delayAcc + 3000 * (tries - 1)⟩ := by
  intro tries
  induction tries with
  | zero => intro idx delayAcc h; omega
  | succ t ih =>
    intro idx delayAcc _ hsi
    have hsi0 : impl idx = .streamIncomplete := by
      have := hsi 0 (Nat.succ_pos t)
      simpa using this
    simp only [retryLoop]
    rw [hsi0]
    by_cases ht : t > 0
    · simp only [if_pos ht]
      have := ih (idx + 1) (delayAcc + 3000) (by omega)
        (fun i hi => by
          have := hsi (i + 1) (by omega)
          simpa [Nat.add_assoc, Nat.add_comm 1 i] using this)
      rw [this]
      simp only [RetryRun.mk.injEq]
      refine ⟨trivial, by omega, by omega⟩
    · have ht0 : t = 0 := by omega
      subst ht0
      simp only [if_neg ht]
      simp only [retryLoop, RetryRun.mk.injEq]
      norm_num

theorem retryLoop_propagates (impl : Nat → AttemptResult) :
    ∀ (k tries idx delayAcc : Nat), k < tries →
      (∀ i, i < k → impl (idx + i) = .streamIncomplete) →
      impl (idx + k) = .otherError →
      retryLoop impl tries idx delayAcc = ⟨.propagated, idx + k + 1, delayAcc + 3000 * k⟩ := by
  intro k
  induction k with
  | zero =>
    intro tries idx delayAcc hlt _ herr
    obtain ⟨t, rfl⟩ := Nat.exists_eq_succ_of_ne_zero (Nat.pos_iff_ne_zero.mp hlt)
    simp only [retryLoop]
    rw [show idx + 0 = idx from rfl] at herr
    rw [herr]
    simp
  | succ k ih =>
    intro tries idx delayAcc hlt hsi herr
    obtain ⟨t, rfl⟩ := Nat.exists_eq_succ_of_ne_zero (Nat.pos_iff_ne_zero.mp (Nat.lt_of_le_of_lt (Nat.zero_le _) hlt))
    have hsi0 : impl idx = .streamIncomplete := by
      have := hsi 0 (Nat.succ_pos k)
      simpa using this
    have ht : t > 0 := by omega
    simp only [retryLoop]
    rw [hsi0]
    simp only [if_pos ht]
    have := ih t (idx + 1) (delayAcc + 3000) (by omega)
      (fun i hi => by
        have := hsi (i + 1) (by omega)
        simpa [Nat.add_assoc, Nat.add_comm 1 i] using this)
      (by
        have : idx + 1 + k = idx + (k + 1) := by omega
        rw [this]
        exact herr)
    rw [this]
    simp only [RetryRun.mk.injEq]
    refine ⟨trivial, by omega, by omega⟩

/-- C3: `getJobOutput` retries only `StreamIncomplete` failures, with a
fixed 3000 ms backoff between attempts, up to the bound of 10 attempts:
when the underlying extraction raises `StreamIncomplete` on the first
`n < 10` attempts and then succeeds, the wrapper succeeds after `n + 1`
attempts having waited `3000 * n` ms; when the first 10 attempts (so any
`N ≥ 10` forced failures) all raise `StreamIncomplete`, it stops at 10
attempts and raises the terminal job-scoped error; and a failure other
than `StreamIncomplete` (e.g. a JSON parse failure) on attempt `k`
propagates immediately, after exactly `k + 1` attempts, without further
retries. -/
theorem c3_retry_semantics (impl : Nat → AttemptResult) :
    (∀ (n : Nat) (v : Option Json), (∀ i, i < n → impl i = .streamIncomplete) →
      impl n = .ok v → n < 10 →
      getJobOutput impl = ⟨.ok v, n + 1, 3000 * n⟩) ∧
    ((∀ i, i < 10 → impl i = .streamIncomplete) →
      getJobOutput impl = ⟨.terminalError, 10, 27000⟩) ∧
    (∀ (k : Nat), (∀ i, i < k → impl i = .streamIncomplete) →
      impl k = .otherError → k < 10 →
      getJobOutput impl = ⟨.propagated, k + 1, 3000 * k⟩) := by
  refine ⟨?_, ?_, ?_⟩
  · intro n v hsi hok hn
    have := retryLoop_ok impl v n 10 0 0 hn (fun i hi => by simpa using hsi i hi)
      (by simpa using hok)
    simpa [getJobOutput] using this
  · intro hsi
    have := retryLoop_exhausted impl 10 0 0 (by omega)
      (fun i hi => by simpa using hsi i hi)
    simpa [getJobOutput] using this
  · intro k hsi herr hk
    have := retryLoop_propagates impl k 10 0 0 hk (fun i hi => by simpa using hsi i hi)
      (by simpa using herr)
    simpa [getJobOutput] using this

/-- Witness for `c3_retry_semantics`: an extraction failing with
`StreamIncomplete` exactly on attempts 0, 1, 2 and succeeding on attempt 3
makes the wrapper succeed after 4 attempts and 9000 ms of backoff. -/
theorem c3_retry_semantics_witness :
    (∀ i, i < 3 →
      (fun i => if i < 3 then AttemptResult.streamIncomplete else .ok none) i =
        .streamIncomplete) ∧
    (fun i => if i < 3 then AttemptResult.streamIncomplete else .ok none) 3 = .ok none ∧
    getJobOutput (fun i => if i < 3 then AttemptResult.streamIncomplete else .ok none) =
      ⟨.ok none, 4, 9000⟩ :=
  ⟨fun i h => by simp only [if_pos h],
   by norm_num,
   (c3_retry_semantics _).1 3 none (fun i h => by simp only [if_pos h])
     (by norm_num) (by norm_num)⟩

/-! ### Event serializer (C5, C7, C8) -/

theorem serStep_arrive_entry (maxInProgress : Nat) (s : SerState) :
    (serStep maxInProgress s .arrive).entry =
      if getPendingCount s + 1 > maxInProgress then s.entry
      else some (getPendingCount s + 1) := by
  simp only [serStep]
  split_ifs <;> rfl

theorem serStep_complete_entry (maxInProgress : Nat) (s : SerState) :
    (serStep maxInProgress s .complete).entry =
      match s.entry with
      | none => none
      | some c => if c - 1 > 0 then some (c - 1) else none := by
  cases hs : s.entry with
  | none => simp only [serStep, hs]
  | some c =>
    simp only [serStep, hs]
    split_ifs <;> rfl

theorem serStep_inv (maxInProgress : Nat) (s : SerState) (e : SerEvent)
    (h : ∀ c, s.entry = some c → 1 ≤ c ∧ c ≤ maxInProgress) :
    ∀ c, (serStep maxInProgress s e).entry = some c → 1 ≤ c ∧ c ≤ maxInProgress := by
  intro c hc
  cases e with
  | arrive =>
    rcases Nat.lt_or_ge maxInProgress (getPendingCount s + 1) with hgt | hle
    · rw [serStep_arrive_entry, if_pos hgt] at hc
      exact h c hc
    · rw [serStep_arrive_entry, if_neg (by omega)] at hc
      injection hc with hc'
      cases hs : s.entry with
      | none => simp only [getPendingCount, hs, Option.getD_none] at hc' hle; omega
      | some k =>
        have := h k hs
        simp only [getPendingCount, hs, Option.getD_some] at hc' hle
        omega
  | complete =>
    cases hs : s.entry with
    | none =>
      simp only [serStep_complete_entry, hs] at hc
      cases hc
    | some k =>
      simp only [serStep_complete_entry, hs] at hc
      rcases Nat.lt_or_ge 0 (k - 1) with hpos | hz
      · rw [if_pos hpos] at hc
        injection hc with hc'
        have := h k hs
        omega
      · rw [if_neg (by omega)] at hc
        cases hc

theorem serRun_inv (maxInProgress : Nat) (evs : List SerEvent) :
    ∀ s, (∀ c, s.entry = some c → 1 ≤ c ∧ c ≤ maxInProgress) →
      ∀ c, (serRun maxInProgress s evs).entry = some c → 1 ≤ c ∧ c ≤ maxInProgress := by
  induction evs with
  | nil => intro s h; exact h
  | cons e rest ih =>
    intro s h
    exact ih (serStep maxInProgress s e) (serStep_inv maxInProgress s e h)

/-- C8: under every sequence of event arrivals and pass completions from
the idle state, each stored pending count satisfies
`1 ≤ count ≤ maxInProgress` (so 0 is never stored); an arrival finding the
count already at the ceiling is dropped without incrementing (the state is
unchanged, no pass starts); and a completion that brings the count to 0
removes the entry from the map. -/
theorem c8_pending_count_invariant (maxInProgress : Nat) (evs : List SerEvent) :
    (∀ c, (serRun maxInProgress serIdle evs).entry = some c →
      1 ≤ c ∧ c ≤ maxInProgress) ∧
    (∀ s : SerState, s.entry = some maxInProgress → serStep maxInProgress s .arrive = s) ∧
    (∀ s : SerState, s.entry = some 1 → (serStep maxInProgress s .complete).entry = none) := by
  refine ⟨serRun_inv maxInProgress evs serIdle (fun c hc => by cases hc), ?_, ?_⟩
  · intro s hs
    simp only [serStep, getPendingCount, hs, Option.getD_some]
    rw [if_pos (by omega)]
  · intro s hs
    simp only [serStep, hs]
    rw [if_neg (by omega)]

/-- Witness for `c8_pending_count_invariant` with ceiling 2: after three
arrivals the stored count is 2 (the third arrival was dropped) and
satisfies the bounds; a saturated entry absorbs an arrival unchanged; a
count of 1 is removed on completion. -/
theorem c8_pending_count_invariant_witness :
    (serRun 2 serIdle [.arrive, .arrive, .arrive]).entry = some 2 ∧
    (1 ≤ 2 ∧ 2 ≤ 2) ∧
    serStep 2 ⟨some 2, 1⟩ .arrive = ⟨some 2, 1⟩ ∧
    (serStep 2 ⟨some 1, 2⟩ .complete).entry = none :=
  ⟨by decide,
   (c8_pending_count_invariant 2 [.arrive, .arrive, .arrive]).1 2 (by decide),
   (c8_pending_count_invariant 2 []).2.1 ⟨some 2, 1⟩ rfl,
   (c8_pending_count_invariant 2 []).2.2 ⟨some 1, 2⟩ rfl⟩

theorem serRun_arrive_saturated (k : Nat) :
    ∀ p, serRun 2 ⟨some 2, p⟩ (List.replicate k .arrive) = ⟨some 2, p⟩ := by
  induction k with
  | zero => intro p; rfl
  | succ m ih =>
    intro p
    rw [List.replicate_succ]
    show serRun 2 (serStep 2 ⟨some 2, p⟩ .arrive) (List.replicate m .arrive) = _
    have h1 : serStep 2 ⟨some 2, p⟩ .arrive = ⟨some 2, p⟩ := rfl
    rw [h1, ih p]

theorem serRun_burst (N : Nat) (hN : 1 ≤ N) :
    serRun 2 serIdle (List.replicate N .arrive) = ⟨some (min N 2), 1⟩ := by
  obtain ⟨n, rfl⟩ : ∃ n, N = n + 1 := ⟨N - 1, by omega⟩
  rw [List.replicate_succ]
  show serRun 2 (serStep 2 serIdle .arrive) (List.replicate n .arrive) = _
  have h1 : serStep 2 serIdle .arrive = ⟨some 1, 1⟩ := rfl
  rw [h1]
  cases n with
  | zero => rfl
  | succ m =>
    rw [List.replicate_succ]
    show serRun 2 (serStep 2 ⟨some 1, 1⟩ .arrive) (List.replicate m .arrive) = _
    have h2 : serStep 2 ⟨some 1, 1⟩ .arrive = ⟨some 2, 1⟩ := rfl
    rw [h2, serRun_arrive_saturated m 1]
    have h3 : min (m + 1 + 1) 2 = 2 := by omega
    rw [h3]

/-- C5: with the default ceiling 2, a burst of `N ≥ 1` arrivals for one
build (no pass completing during the burst) starts exactly one pass during
the burst (at its first arrival) and stores a pending count of `min N 2`;
draining then takes exactly `min N 2` completions, for a total of
`min N 2 ≤ 2` passes regardless of `N`. In particular at least one pass
starts at or after the last admitted arrival: for `N = 1` the single pass
starts at that very arrival; for `N ≥ 2` the pass count rises from 1 to 2
only during the drain, i.e. after all arrivals of the burst. -/
theorem c5_burst_two_passes (N : Nat) (hN : 1 ≤ N) :
    (serRun 2 serIdle (List.replicate N .arrive)).passes = 1 ∧
    (serRun 2 serIdle (List.replicate N .arrive)).entry = some (min N 2) ∧
    (serRun 2 (serRun 2 serIdle (List.replicate N .arrive))
      (List.replicate (min N 2) .complete)).passes = min N 2 ∧
    min N 2 ≤ 2 ∧
    (serRun 2 (serRun 2 serIdle (List.replicate N .arrive))
      (List.replicate (min N 2) .complete)).entry = none := by
  have hb := serRun_burst N hN
  rw [hb]
  rcases Nat.lt_or_ge N 2 with h | h
  · have h1 : N = 1 := by omega
    subst h1
    exact ⟨rfl, rfl, rfl, by omega, rfl⟩
  · have hm : min N 2 = 2 := by omega
    rw [hm]
    exact ⟨rfl, rfl, rfl, by omega, rfl⟩

/-- Witness for `c5_burst_two_passes` at a burst of 5 events. -/
theorem c5_burst_two_passes_witness :
    (1 : Nat) ≤ 5 ∧
    ((serRun 2 serIdle (List.replicate 5 .arrive)).passes = 1 ∧
    (serRun 2 serIdle (List.replicate 5 .arrive)).entry = some (min 5 2) ∧
    (serRun 2 (serRun 2 serIdle (List.replicate 5 .arrive))
      (List.replicate (min 5 2) .complete)).passes = min 5 2 ∧
    min 5 2 ≤ 2 ∧
    (serRun 2 (serRun 2 serIdle (List.replicate 5 .arrive))
      (List.replicate (min 5 2) .complete)).entry = none) :=
  ⟨by omega, c5_burst_two_passes 5 (by omega)⟩

/-- C7 (amended): when a pass completes, the pending count is decremented
by one; if the result is greater than 0 exactly one more pass starts
immediately, and if the result is 0 the entry is deleted. With the default
ceiling 2 a stored count never exceeds 2, so after any completion at most
one coalesced event remains and the single rerun drains everything: from
every reachable state, two completions with no intervening arrival always
empty the entry. For ceilings greater than 2 the single rerun does not
drain all coalesced events — each admitted event costs one pass (see the
counterexample). -/
theorem c7_completion_step (maxInProgress : Nat) (s : SerState) (c : Nat)
    (hs : s.entry = some c) :
    (serStep maxInProgress s .complete =
      if c - 1 > 0 then ⟨some (c - 1), s.passes + 1⟩ else ⟨none, s.passes⟩) ∧
    (∀ (evs : List SerEvent) (k : Nat), (serRun 2 serIdle evs).entry = some k →
      (serRun 2 (serRun 2 serIdle evs) [.complete, .complete]).entry = none) := by
  constructor
  · simp only [serStep, hs]
  · intro evs k hk
    obtain ⟨hk1, hk2⟩ := serRun_inv 2 evs serIdle (fun x hx => by cases hx) k hk
    show (serStep 2 (serStep 2 (serRun 2 serIdle evs) .complete) .complete).entry = none
    interval_cases k
    · have h1 : serStep 2 (serRun 2 serIdle evs) .complete =
          { serRun 2 serIdle evs with entry := none } := by
        simp only [serStep, hk]
        rw [if_neg (by omega)]
      rw [h1]
      rfl
    · have h1 : serStep 2 (serRun 2 serIdle evs) .complete =
          ⟨some 1, (serRun 2 serIdle evs).passes + 1⟩ := by
        simp only [serStep, hk]
        rw [if_pos (by omega)]
      rw [h1]
      rfl

/-- C7 counterexample: with ceiling 3, three admitted events for one build
then completions. After the first pass completes the count is 2 and one
rerun starts; when that single rerun completes the entry is still present
(count 1) — the rerun did not drain the remaining coalesced event — and a
third pass starts, so draining costs one pass per coalesced event (3
passes), contradicting the claim for every configured ceiling. -/
theorem c7_counterexample :
    (serRun 3 serIdle [.arrive, .arrive, .arrive, .complete, .complete]).entry = some 1 ∧
    (serRun 3 serIdle
      [.arrive, .arrive, .arrive, .complete, .complete, .complete]).passes = 3 ∧
    (serRun 3 serIdle
      [.arrive, .arrive, .arrive, .complete, .complete, .complete]).entry = none := by
  decide

/-- Witness for `c7_completion_step`: a completion at count 2 decrements
to 1 and starts exactly one more pass; from the reachable state after one
arrival, two completions empty the entry. -/
theorem c7_completion_step_witness :
    serStep 2 ⟨some 2, 1⟩ .complete = ⟨some 1, 2⟩ ∧
    (serRun 2 serIdle [SerEvent.arrive]).entry = some 1 ∧
    (serRun 2 (serRun 2 serIdle [SerEvent.arrive]) [.complete, .complete]).entry = none :=
  ⟨(c7_completion_step 2 ⟨some 2, 1⟩ 2 rfl).1,
   by decide,
   (c7_completion_step 2 ⟨some 2, 1⟩ 2 rfl).2 [SerEvent.arrive] 1 (by decide)⟩

/-! ### Publication despite output-retrieval failure (C9) -/

/-- C9: for a job whose derived status is `completed`, when the job-output
retrieval fails with any error (retry-bound exhaustion, a JSON parse
failure, or anything else), `createCheck` and `updateCheck` still execute
the publish request with `conclusion` and `completed_at` attached and no
`output` field; the failure is caught inside `addCompletionInfo` (logged),
so the executed request — and the whole call — is exactly what it would
have been had the retrieval succeeded with no output, for every API
outcome. -/
theorem c9_publish_without_output (b : BuildInfo) (j : JobInfo) (err : FetchError)
    (apiCreate : Except FetchError Nat) (apiUpd : Except FetchError Unit)
    (hc : getStatus j = "completed") :
    ((SrcGithub.createCheck b j (.error err) apiCreate).1.conclusion =
        some (getConclusion j) ∧
      (SrcGithub.createCheck b j (.error err) apiCreate).1.completed_at =
        some j.finishedAt ∧
      (SrcGithub.createCheck b j (.error err) apiCreate).1.output = none ∧
      (SrcGithub.createCheck b j (.error err) apiCreate).1.status = "completed" ∧
      SrcGithub.createCheck b j (.error err) apiCreate =
        SrcGithub.createCheck b j (.ok none) apiCreate) ∧
    ((SrcGithub.updateCheck b j (.error err) apiUpd).conclusion =
        some (getConclusion j) ∧
      (SrcGithub.updateCheck b j (.error err) apiUpd).completed_at = some j.finishedAt ∧
      (SrcGithub.updateCheck b j (.error err) apiUpd).output = none ∧
      SrcGithub.updateCheck b j (.error err) apiUpd =
        SrcGithub.updateCheck b j (.ok none) apiUpd) := by
  have hcs : (SrcGithub.getChecksCreateParams b j).status = "completed" := hc
  have hus : (SrcGithub.getChecksUpdateParams b j).status = "completed" := hc
  constructor
  · cases apiCreate with
    | ok checkId =>
      simp [SrcGithub.createCheck, hcs, SrcGithub.addCompletionInfoCreate,
        SrcGithub.getChecksCreateParams, hc]
    | error e =>
      simp [SrcGithub.createCheck, hcs, SrcGithub.addCompletionInfoCreate,
        SrcGithub.getChecksCreateParams, hc]
  · cases apiUpd with
    | ok u =>
      simp [SrcGithub.updateCheck, hus, SrcGithub.addCompletionInfoUpdate,
        SrcGithub.getChecksUpdateParams, hc]
    | error e =>
      simp [SrcGithub.updateCheck, hus, SrcGithub.addCompletionInfoUpdate,
        SrcGithub.getChecksUpdateParams, hc]

/-- Witness for `c9_publish_without_output`: a finished (`passed`) job
whose output retrieval exhausted the retry bound is still published with
conclusion `success`, its completion time, and no output. -/
theorem c9_publish_without_output_witness :
    getStatus ⟨"1", "2019-01-01", false, "A", "t0", "passed", "u", none⟩ = "completed" ∧
    ((SrcGithub.createCheck ⟨"travis-ci.org", none, "sha", "7", "o", "r"⟩
        ⟨"1", "2019-01-01", false, "A", "t0", "passed", "u", none⟩
        (.error .retriesExhausted) (.ok 42)).1.conclusion = some "success" ∧
      (SrcGithub.createCheck ⟨"travis-ci.org", none, "sha", "7", "o", "r"⟩
        ⟨"1", "2019-01-01", false, "A", "t0", "passed", "u", none⟩
        (.error .retriesExhausted) (.ok 42)).1.completed_at = some "2019-01-01" ∧
      (SrcGithub.createCheck ⟨"travis-ci.org", none, "sha", "7", "o", "r"⟩
        ⟨"1", "2019-01-01", false, "A", "t0", "passed", "u", none⟩
        (.error .retriesExhausted) (.ok 42)).1.output = none) :=
  ⟨rfl,
    ((c9_publish_without_output ⟨"travis-ci.org", none, "sha", "7", "o", "r"⟩
      ⟨"1", "2019-01-01", false, "A", "t0", "passed", "u", none⟩
      .retriesExhausted (.ok 42) (.ok ()) rfl).1.1),
    ((c9_publish_without_output ⟨"travis-ci.org", none, "sha", "7", "o", "r"⟩
      ⟨"1", "2019-01-01", false, "A", "t0", "passed", "u", none⟩
      .retriesExhausted (.ok 42) (.ok ()) rfl).1.2.1),
    ((c9_publish_without_output ⟨"travis-ci.org", none, "sha", "7", "o", "r"⟩
      ⟨"1", "2019-01-01", false, "A", "t0", "passed", "u", none⟩
      .retriesExhausted (.ok 42) (.ok ()) rfl).1.2.2.1)⟩
